import Mathlib

/-!
# Verification of the AI Study Planner scheduler

Shallow embedding of `generate_schedule` (and `save_favorite`) from
`ai_study_planner.py`.  Conventions of the embedding:

* Calendar dates are integers counting days; `today` is an explicit
  parameter, and `exam_date - today` is the Python
  `(exam_date - datetime.date.today()).days`.
* Fractional hours are exact rationals.  Python's `round(x, 1)` (round half
  to even, one decimal place) is `round1` below; the embedding works in the
  exact decimal arithmetic that the spec describes.
* The Python `defaultdict(list)` schedule is an insertion-ordered
  association list `List (ℤ × List Task)`.  `dictSet` is dict assignment
  (`schedule[k] = v`: replace in place, or append a new key at the end);
  `dictAppend` is `schedule[k].append(t)` (get-or-create empty list, then
  append).
* `difficulty` is a total map `String → ℤ`; the caller builds the Python
  dict with exactly the (deduplicated) subjects as keys, so
  `sum(difficulty.values())` is the sum of `difficulty` over
  `subjects.dedup`.
-/

namespace StudyPlanner

/-- A scheduled task: a label (a subject name, or `"Review " ++ subject`)
together with its hours. -/
abbrev Task := String × ℚ

/-- The schedule: an insertion-ordered association list from date to task
list, mirroring Python's `defaultdict(list)`. -/
abbrev Sched := List (ℤ × List Task)

/-- Python's `round` to the nearest integer, ties to even. -/
def pyRoundInt (q : ℚ) : ℤ :=
  let f := ⌊q⌋
  if q - f < 1/2 then f
  else if 1/2 < q - f then f + 1
  else if f % 2 = 0 then f else f + 1

/-- Python's `round(x, 1)`: one decimal place, ties to even. -/
def round1 (q : ℚ) : ℚ := (pyRoundInt (q * 10) : ℚ) / 10

/-- Python dict assignment `m[k] = v`: replace the value of an existing key
in place, otherwise append the new binding at the end. -/
def dictSet : Sched → ℤ → List Task → Sched
  | [], k, v => [(k, v)]
  | (k', ts) :: rest, k, v =>
    if k' = k then (k', v) :: rest else (k', ts) :: dictSet rest k v

/-- Python `defaultdict(list)` append `m[k].append(t)`: append to the value
of an existing key in place, otherwise create the key at the end with the
singleton list. -/
def dictAppend : Sched → ℤ → Task → Sched
  | [], k, t => [(k, [t])]
  | (k', ts) :: rest, k, t =>
    if k' = k then (k', ts ++ [t]) :: rest else (k', ts) :: dictAppend rest k t

/-- The task list recorded for date `k` (empty when the date is absent). -/
def tasksAt : Sched → ℤ → List Task
  | [], _ => []
  | (k', ts) :: rest, k => if k' = k then ts else tasksAt rest k

/-- `total_weight = sum(difficulty.values())`: the difficulty dict's keys
are exactly the distinct subjects. -/
def total_weight (subjects : List String) (difficulty : String → ℤ) : ℤ :=
  (subjects.dedup.map difficulty).sum

/-- The weight actually divided by: `if total_weight == 0: total_weight = 1`. -/
def effective_weight (subjects : List String) (difficulty : String → ℤ) : ℤ :=
  if total_weight subjects difficulty = 0 then 1 else total_weight subjects difficulty

/-- `hours_per_subject`: each subject's total hour budget,
`round((difficulty[s] / total_weight) * (total_days * available_hours), 1)`. -/
def hours_per_subject (subjects : List String) (difficulty : String → ℤ)
    (total_days : ℤ) (available_hours : ℚ) : String → ℚ :=
  fun subject =>
    round1 (((difficulty subject : ℚ) / (effective_weight subjects difficulty : ℚ))
      * ((total_days : ℚ) * available_hours))

/-- The inner per-day loop over `subjects`: starting from owed-hours map
`hps` and `daily` remaining hours, returns `(today_plan, hps', daily')`.
For each subject with `hps subject > 0`, allocates
`min(1.0, hps subject, daily)` if that is positive, decrementing both the
subject's owed hours and the day's remaining hours. -/
def allocDay : List String → (String → ℚ) → ℚ → List Task × (String → ℚ) × ℚ
  | [], hps, daily => ([], hps, daily)
  | subject :: rest, hps, daily =>
    if hps subject > 0 then
      let allocated := min 1 (min (hps subject) daily)
      if allocated > 0 then
        let res := allocDay rest (Function.update hps subject (hps subject - allocated))
          (daily - allocated)
        ((subject, allocated) :: res.1, res.2)
      else
        allocDay rest hps daily
    else
      allocDay rest hps daily

/-- One iteration of the `while day < total_days` loop: allocate the day's
plan, record it under `today + day` by dict assignment when non-empty, then
append the review tasks (`"Review " ++ subject`, `round(hours / 2, 1)`) to
date `today + day + 2`. -/
def dayStep (subjects : List String) (available_hours : ℚ) (today : ℤ)
    (st : (String → ℚ) × Sched) (day : ℕ) : (String → ℚ) × Sched :=
  let res := allocDay subjects st.1 available_hours
  let today_plan := res.1
  let sched1 := if today_plan = [] then st.2 else dictSet st.2 (today + (day : ℤ)) today_plan
  let rday : ℤ := today + (day : ℤ) + 2
  let sched2 := today_plan.foldl
    (fun acc p => dictAppend acc rday ("Review " ++ p.1, round1 (p.2 / 2))) sched1
  (res.2.1, sched2)

/-- `generate_schedule(subjects, difficulty, available_hours, exam_date)`,
with `today` passed explicitly (the Python code reads
`datetime.date.today()`). -/
def generate_schedule (subjects : List String) (difficulty : String → ℤ)
    (available_hours : ℚ) (exam_date today : ℤ) : Sched :=
  let total_days := exam_date - today
  let hps0 := hours_per_subject subjects difficulty total_days available_hours
  ((List.range total_days.toNat).foldl (dayStep subjects available_hours today) (hps0, [])).2

/-- The owed-hours map after `d` days of allocation. -/
def hpsAfter (subjects : List String) (available_hours : ℚ)
    (hps0 : String → ℚ) : ℕ → String → ℚ
  | 0 => hps0
  | d + 1 => (allocDay subjects (hpsAfter subjects available_hours hps0 d) available_hours).2.1

/-- The `today_plan` allocated on day `d` (day indices from 0). -/
def planOn (subjects : List String) (available_hours : ℚ)
    (hps0 : String → ℚ) (d : ℕ) : List Task :=
  (allocDay subjects (hpsAfter subjects available_hours hps0 d) available_hours).1

/-- The study tasks `generate_schedule` allocates on day `d`: the
`today_plan` of the `d`-th loop iteration. -/
def dayPlan (subjects : List String) (difficulty : String → ℤ)
    (available_hours : ℚ) (exam_date today : ℤ) (d : ℕ) : List Task :=
  planOn subjects available_hours
    (hours_per_subject subjects difficulty (exam_date - today) available_hours) d

/-- The hours a plan gives to subject `s`. -/
def hoursFor (s : String) (plan : List Task) : ℚ :=
  ((plan.filter (fun p => p.1 = s)).map Prod.snd).sum

/-- The total study (non-review) hours allocated to subject `s` over all
days of the planning horizon. -/
def totalStudyFor (subjects : List String) (difficulty : String → ℤ)
    (available_hours : ℚ) (exam_date today : ℤ) (s : String) : ℚ :=
  ((List.range (exam_date - today).toNat).map
    (fun d => hoursFor s (dayPlan subjects difficulty available_hours exam_date today d))).sum

/-- The total hours of a plan (sum of the `hours` components). -/
def planSum (plan : List Task) : ℚ := (plan.map Prod.snd).sum

/-- A favorites resource record `{type, subject, title, link}`. -/
structure Resource where
  type : String
  subject : String
  title : String
  link : String
deriving DecidableEq

/-- `save_favorite(resource)`: append the resource to the favorites list
unless an equal record is already present (Python `in` compares by value
equality). -/
def save_favorite (favorites : List Resource) (resource : Resource) : List Resource :=
  if resource ∈ favorites then favorites else favorites ++ [resource]

/-- Difficulty map of the concrete scenario: Math ↦ 4, Science ↦ 2. -/
def mathSciDifficulty : String → ℤ :=
  fun s => if s = "Math" then 4 else if s = "Science" then 2 else 0

/-- Difficulty map with a single subject Math of difficulty 1. -/
def mathOnlyDifficulty : String → ℤ :=
  fun s => if s = "Math" then 1 else 0

/-- Structural invariant of the schedule under construction with horizon
`N` days: every date lies in `[today, today + N + 1]`, and dates on or
after `today + N` hold only review-labeled tasks. -/
def SchedOk (subjects : List String) (today N : ℤ) (m : Sched) : Prop :=
  ∀ kts ∈ m, today ≤ kts.1 ∧ kts.1 ≤ today + N + 1 ∧
    (today + N ≤ kts.1 → ∀ p ∈ kts.2, ∃ s ∈ subjects, p.1 = "Review " ++ s)

/-! ## Theorems -/

/-- Any entry of `dictSet m k v` is an entry of `m` or the binding `(k, v)`. -/
theorem mem_dictSet {m : Sched} {k : ℤ} {v : List Task} :
    ∀ kts ∈ dictSet m k v, kts ∈ m ∨ kts = (k, v) := by
  induction m with
  | nil =>
    intro kts h
    simp only [dictSet, List.mem_singleton] at h
    exact Or.inr h
  | cons a rest ih =>
    obtain ⟨k', ts⟩ := a
    intro kts h
    simp only [dictSet] at h
    by_cases hk : k' = k
    · rw [if_pos hk] at h
      rcases List.mem_cons.mp h with h1 | h1
      · right; rw [h1, hk]
      · exact Or.inl (List.mem_cons_of_mem _ h1)
    · rw [if_neg hk] at h
      rcases List.mem_cons.mp h with h1 | h1
      · left; rw [h1]; exact List.mem_cons_self _ _
      · rcases ih kts h1 with h2 | h2
        · exact Or.inl (List.mem_cons_of_mem _ h2)
        · exact Or.inr h2

/-- Any entry of `dictAppend m k t` is an entry of `m`, an entry of `m` at
key `k` with `t` appended, or the fresh binding `(k, [t])`. -/
theorem mem_dictAppend {m : Sched} {k : ℤ} {t : Task} :
    ∀ kts ∈ dictAppend m k t,
      kts ∈ m ∨ (∃ ts, (k, ts) ∈ m ∧ kts = (k, ts ++ [t])) ∨ kts = (k, [t]) := by
  induction m with
  | nil =>
    intro kts h
    simp only [dictAppend, List.mem_singleton] at h
    exact Or.inr (Or.inr h)
  | cons a rest ih =>
    obtain ⟨k', ts⟩ := a
    intro kts h
    simp only [dictAppend] at h
    by_cases hk : k' = k
    · rw [if_pos hk] at h
      rcases List.mem_cons.mp h with h1 | h1
      · refine Or.inr (Or.inl ⟨ts, ?_, ?_⟩)
        · rw [← hk]; exact List.mem_cons_self _ _
        · rw [h1, hk]
      · exact Or.inl (List.mem_cons_of_mem _ h1)
    · rw [if_neg hk] at h
      rcases List.mem_cons.mp h with h1 | h1
      · left; rw [h1]; exact List.mem_cons_self _ _
      · rcases ih kts h1 with h2 | h2 | h2
        · exact Or.inl (List.mem_cons_of_mem _ h2)
        · obtain ⟨ts', hts', heq⟩ := h2
          exact Or.inr (Or.inl ⟨ts', List.mem_cons_of_mem _ hts', heq⟩)
        · exact Or.inr (Or.inr h2)

/-- Every label allocated by the per-day loop is one of the subjects. -/
theorem allocDay_fst_mem :
    ∀ (l : List String) (hps : String → ℚ) (daily : ℚ),
      ∀ p ∈ (allocDay l hps daily).1, p.1 ∈ l := by
  intro l
  induction l with
  | nil => intro hps daily p hp; simp [allocDay] at hp
  | cons s rest ih =>
    intro hps daily p hp
    simp only [allocDay] at hp
    split at hp
    · split at hp
      · rcases List.mem_cons.mp hp with h | h
        · subst h; exact List.mem_cons_self _ _
        · exact List.mem_cons_of_mem _ (ih _ _ p h)
      · exact List.mem_cons_of_mem _ (ih _ _ p hp)
    · exact List.mem_cons_of_mem _ (ih _ _ p hp)

/-- `dictSet` within the horizon preserves the schedule invariant. -/
theorem schedOk_dictSet {subjects : List String} {today N : ℤ} {m : Sched}
    {k : ℤ} {v : List Task} (h : SchedOk subjects today N m)
    (hk1 : today ≤ k) (hk3 : k < today + N) :
    SchedOk subjects today N (dictSet m k v) := by
  intro kts hk
  rcases mem_dictSet kts hk with hin | heq
  · exact h kts hin
  · subst heq
    exact ⟨hk1, by omega, fun hcon => absurd hcon (by omega)⟩

/-- `dictAppend` of a review-form task at an in-range date preserves the
schedule invariant. -/
theorem schedOk_dictAppend {subjects : List String} {today N : ℤ} {m : Sched}
    {k : ℤ} {t : Task} (h : SchedOk subjects today N m)
    (hk1 : today ≤ k) (hk2 : k ≤ today + N + 1)
    (ht : ∃ s ∈ subjects, t.1 = "Review " ++ s) :
    SchedOk subjects today N (dictAppend m k t) := by
  intro kts hk
  rcases mem_dictAppend kts hk with hin | ⟨ts, hts, heq⟩ | heq
  · exact h kts hin
  · subst heq
    obtain ⟨h1, h2, h3⟩ := h (k, ts) hts
    refine ⟨hk1, hk2, fun hge p hp => ?_⟩
    rcases List.mem_append.mp hp with hp | hp
    · exact h3 hge p hp
    · rw [List.mem_singleton.mp hp]; exact ht
  · subst heq
    refine ⟨hk1, hk2, fun hge p hp => ?_⟩
    rw [List.mem_singleton.mp hp]; exact ht

/-- Appending a whole day's review tasks preserves the schedule invariant. -/
theorem schedOk_reviews {subjects : List String} {today N : ℤ} {k : ℤ}
    (hk1 : today ≤ k) (hk2 : k ≤ today + N + 1) :
    ∀ (plan : List Task), (∀ p ∈ plan, p.1 ∈ subjects) →
      ∀ m : Sched, SchedOk subjects today N m →
        SchedOk subjects today N
          (plan.foldl (fun acc p => dictAppend acc k ("Review " ++ p.1, round1 (p.2 / 2))) m) := by
  intro plan
  induction plan with
  | nil => intro _ m hm; exact hm
  | cons p rest ih =>
    intro hmem m hm
    rw [List.foldl_cons]
    exact ih (fun q hq => hmem q (List.mem_cons_of_mem _ hq)) _
      (schedOk_dictAppend hm hk1 hk2 ⟨p.1, hmem p (List.mem_cons_self _ _), rfl⟩)

/-- One day of the generation loop preserves the schedule invariant. -/
theorem schedOk_dayStep {subjects : List String} {ah : ℚ} {today N : ℤ}
    {st : (String → ℚ) × Sched} {d : ℕ} (hd : (d : ℤ) < N)
    (h : SchedOk subjects today N st.2) :
    SchedOk subjects today N (dayStep subjects ah today st d).2 := by
  have h1 : SchedOk subjects today N
      (if (allocDay subjects st.1 ah).1 = [] then st.2
       else dictSet st.2 (today + (d : ℤ)) (allocDay subjects st.1 ah).1) := by
    split
    · exact h
    · exact schedOk_dictSet h (by omega) (by omega)
  exact schedOk_reviews (by omega) (by omega) _
    (allocDay_fst_mem subjects st.1 ah) _ h1

/-- The generation loop preserves the schedule invariant. -/
theorem schedOk_foldl {subjects : List String} {ah : ℚ} {today N : ℤ} :
    ∀ (l : List ℕ) (st : (String → ℚ) × Sched), (∀ d ∈ l, (d : ℤ) < N) →
      SchedOk subjects today N st.2 →
      SchedOk subjects today N ((l.foldl (dayStep subjects ah today) st)).2 := by
  intro l
  induction l with
  | nil => intro st _ h; exact h
  | cons d rest ih =>
    intro st hall h
    rw [List.foldl_cons]
    exact ih _ (fun d' hd' => hall d' (List.mem_cons_of_mem _ hd'))
      (schedOk_dayStep (hall d (List.mem_cons_self _ _)) h)

/-- The schedule returned by `generate_schedule` satisfies the structural
invariant with horizon `exam_date - today`. -/
theorem schedOk_generate (subjects : List String) (difficulty : String → ℤ)
    (available_hours : ℚ) (exam_date today : ℤ) :
    SchedOk subjects today (exam_date - today)
      (generate_schedule subjects difficulty available_hours exam_date today) := by
  unfold generate_schedule
  apply schedOk_foldl
  · intro d hd
    rw [List.mem_range] at hd
    omega
  · intro kts hk
    simp at hk

/-- C6: the zero-weight substitution means the divisor used for the
per-subject budgets is never zero, and the function totally returns a
(possibly empty) schedule — in particular, with an empty subject list the
result is the empty schedule. -/
theorem c6_weight_never_zero (subjects : List String) (difficulty : String → ℤ)
    (available_hours : ℚ) (exam_date today : ℤ) :
    effective_weight subjects difficulty ≠ 0 ∧
    generate_schedule [] difficulty available_hours exam_date today = [] := by
  constructor
  · by_cases h : total_weight subjects difficulty = 0 <;> simp [effective_weight, h]
  · have hfold : ∀ (l : List ℕ) (st : (String → ℚ) × Sched),
        (l.foldl (dayStep [] available_hours today) st).2 = st.2 := by
      intro l
      induction l with
      | nil => intro st; rfl
      | cons d rest ih =>
        intro st
        rw [List.foldl_cons]
        rw [ih]
        simp [dayStep, allocDay]
    unfold generate_schedule
    exact hfold _ _

/-- C7: for a non-empty subject list with positive difficulties and a
positive day count, no scheduled date is earlier than `today`, and any task
on a date after `today + totalDays - 1` (the last planning day) is a review
task — equivalently, every study (allocated, non-review) task lies within
the planning horizon. -/
theorem c7_dates_in_horizon (subjects : List String) (difficulty : String → ℤ)
    (available_hours : ℚ) (exam_date today : ℤ) (hne : subjects ≠ [])
    (hpos : ∀ s ∈ subjects, 0 < difficulty s) (hdays : 0 < exam_date - today) :
    ∀ kts ∈ generate_schedule subjects difficulty available_hours exam_date today,
      today ≤ kts.1 ∧
      (today + (exam_date - today) - 1 < kts.1 →
        ∀ p ∈ kts.2, ∃ s ∈ subjects, p.1 = "Review " ++ s) := by
  intro kts hk
  obtain ⟨h1, h2, h3⟩ :=
    schedOk_generate subjects difficulty available_hours exam_date today kts hk
  exact ⟨h1, fun hgt => h3 (by omega)⟩

/-- Witness for C7 on the single-subject concrete input. -/
theorem c7_dates_in_horizon_witness :
    (["Math"] ≠ ([] : List String)) ∧ (∀ s ∈ ["Math"], 0 < mathOnlyDifficulty s) ∧
    ((0 : ℤ) < 3 - 0) ∧
    ∀ kts ∈ generate_schedule ["Math"] mathOnlyDifficulty 1 3 0,
      (0 : ℤ) ≤ kts.1 ∧
      (0 + (3 - 0) - 1 < kts.1 →
        ∀ p ∈ kts.2, ∃ s ∈ ["Math"], p.1 = "Review " ++ s) :=
  ⟨by decide, by decide, by decide,
    c7_dates_in_horizon ["Math"] mathOnlyDifficulty 1 3 0 (by decide) (by decide) (by decide)⟩

/-- C10: every date key of the schedule (study and review dates alike) is
at most `today + totalDays + 1`: the schedule never extends more than two
days past the last planning day. -/
theorem c10_schedule_bounded (subjects : List String) (difficulty : String → ℤ)
    (available_hours : ℚ) (exam_date today : ℤ) (hdays : 0 < exam_date - today) :
    ∀ kts ∈ generate_schedule subjects difficulty available_hours exam_date today,
      kts.1 ≤ today + (exam_date - today) + 1 := by
  intro kts hk
  exact (schedOk_generate subjects difficulty available_hours exam_date today kts hk).2.1

/-- Witness for C10 on the single-subject concrete input. -/
theorem c10_schedule_bounded_witness :
    ((0 : ℤ) < 3 - 0) ∧
    ∀ kts ∈ generate_schedule ["Math"] mathOnlyDifficulty 1 3 0,
      kts.1 ≤ 0 + (3 - 0) + 1 :=
  ⟨by decide, c10_schedule_bounded ["Math"] mathOnlyDifficulty 1 3 0 (by decide)⟩

/-- `hoursFor` over a cons. -/
theorem hoursFor_cons (s : String) (p : Task) (plan : List Task) :
    hoursFor s (p :: plan) = (if p.1 = s then p.2 else 0) + hoursFor s plan := by
  by_cases h : p.1 = s <;> simp [hoursFor, List.filter_cons, h]

/-- `planSum` over a cons. -/
theorem planSum_cons (p : Task) (plan : List Task) :
    planSum (p :: plan) = p.2 + planSum plan := by
  simp [planSum]

/-- Accounting: after a day's allocation, a subject's owed hours have
decreased by exactly the hours allocated to it in the day's plan. -/
theorem allocDay_owed (x : String) :
    ∀ (l : List String) (hps : String → ℚ) (daily : ℚ),
      (allocDay l hps daily).2.1 x = hps x - hoursFor x (allocDay l hps daily).1 := by
  intro l
  induction l with
  | nil => intro hps daily; simp [allocDay, hoursFor]
  | cons s rest ih =>
    intro hps daily
    simp only [allocDay]
    split
    · split
      · rw [ih, hoursFor_cons]
        by_cases hx : s = x
        · subst hx
          rw [Function.update_same, if_pos rfl]
          ring
        · rw [Function.update_noteq (fun hh => hx hh.symm), if_neg hx]
          ring
      · rw [ih]
    · rw [ih]

/-- The owed-hours map stays non-negative through a day's allocation. -/
theorem allocDay_owed_nonneg (x : String) :
    ∀ (l : List String) (hps : String → ℚ) (daily : ℚ), 0 ≤ hps x →
      0 ≤ (allocDay l hps daily).2.1 x := by
  intro l
  induction l with
  | nil => intro hps daily h; simpa [allocDay] using h
  | cons s rest ih =>
    intro hps daily h
    simp only [allocDay]
    split
    · split
      · apply ih
        by_cases hx : s = x
        · subst hx
          rw [Function.update_same]
          have hm : min 1 (min (hps s) daily) ≤ hps s :=
            le_trans (min_le_right _ _) (min_le_left _ _)
          linarith
        · rw [Function.update_noteq (fun hh => hx hh.symm)]
          exact h
      · exact ih hps daily h
    · exact ih hps daily h

/-- A day's plan never allocates more than the day's remaining hours. -/
theorem allocDay_planSum_le :
    ∀ (l : List String) (hps : String → ℚ) (daily : ℚ), 0 ≤ daily →
      planSum (allocDay l hps daily).1 ≤ daily := by
  intro l
  induction l with
  | nil => intro hps daily h; simpa [allocDay, planSum] using h
  | cons s rest ih =>
    intro hps daily h
    simp only [allocDay]
    split_ifs with h1 h2
    · rw [planSum_cons]
      have hm : min 1 (min (hps s) daily) ≤ daily :=
        le_trans (min_le_right _ _) (min_le_right _ _)
      have := ih (Function.update hps s (hps s - min 1 (min (hps s) daily)))
        (daily - min 1 (min (hps s) daily)) (by linarith)
      linarith
    · exact ih hps daily h
    · exact ih hps daily h

/-- Every allocation in a day's plan is positive and at most the one-hour
session cap `min(1.0, owed, remaining)` allows, hence at most `1.0`. -/
theorem allocDay_entry_bounds (p : Task) :
    ∀ (l : List String) (hps : String → ℚ) (daily : ℚ),
      p ∈ (allocDay l hps daily).1 → 0 < p.2 ∧ p.2 ≤ 1 := by
  intro l
  induction l with
  | nil => intro hps daily hp; simp [allocDay] at hp
  | cons s rest ih =>
    intro hps daily hp
    simp only [allocDay] at hp
    split_ifs at hp with h1 h2
    · rcases List.mem_cons.mp hp with h | h
      · rw [h]
        exact ⟨h2, min_le_left _ _⟩
      · exact ih _ _ h
    · exact ih _ _ hp
    · exact ih _ _ hp

/-- Telescoping: the study hours allocated to `x` over the first `n` days
equal the initial budget minus the remaining owed hours. -/
theorem studySum_eq (subjects : List String) (ah : ℚ) (hps0 : String → ℚ) (x : String) :
    ∀ n : ℕ, ((List.range n).map (fun d => hoursFor x (planOn subjects ah hps0 d))).sum
      = hps0 x - hpsAfter subjects ah hps0 n x := by
  intro n
  induction n with
  | zero => simp [hpsAfter]
  | succ n ihn =>
    rw [List.range_succ, List.map_append, List.sum_append, ihn]
    have h := allocDay_owed x subjects (hpsAfter subjects ah hps0 n) ah
    simp only [List.map_cons, List.map_nil, List.sum_cons, List.sum_nil, hpsAfter, planOn]
    linarith

/-- The owed-hours map stays non-negative over the whole loop. -/
theorem hpsAfter_nonneg (subjects : List String) (ah : ℚ) (hps0 : String → ℚ)
    (x : String) (h : 0 ≤ hps0 x) : ∀ n, 0 ≤ hpsAfter subjects ah hps0 n x := by
  intro n
  induction n with
  | zero => exact h
  | succ n ihn => exact allocDay_owed_nonneg x subjects _ ah ihn

/-- Python rounding preserves non-negativity. -/
theorem round1_nonneg (q : ℚ) (h : 0 ≤ q) : 0 ≤ round1 q := by
  simp only [round1, pyRoundInt]
  have hf : (0 : ℤ) ≤ ⌊q * 10⌋ := Int.floor_nonneg.mpr (by positivity)
  split_ifs <;>
    refine div_nonneg ?_ (by norm_num) <;> exact_mod_cast (by omega : (0:ℤ) ≤ _)

/-- With a non-empty subject list and positive difficulties, the total
weight is positive. -/
theorem total_weight_pos (subjects : List String) (difficulty : String → ℤ)
    (hne : subjects ≠ []) (hpos : ∀ t ∈ subjects, 0 < difficulty t) :
    0 < total_weight subjects difficulty := by
  unfold total_weight
  have hd : subjects.dedup ≠ [] := by
    obtain ⟨x, hx⟩ := List.exists_mem_of_ne_nil subjects hne
    intro hcon
    rw [← List.mem_dedup] at hx
    rw [hcon] at hx
    exact absurd hx (List.not_mem_nil x)
  apply List.sum_pos
  · intro i hi
    obtain ⟨t, ht, rfl⟩ := List.mem_map.mp hi
    exact hpos t (List.mem_dedup.mp ht)
  · intro hcon
    exact hd (List.map_eq_nil_iff.mp hcon)

/-- Hence the effective weight used as divisor is positive. -/
theorem effective_weight_pos (subjects : List String) (difficulty : String → ℤ)
    (hne : subjects ≠ []) (hpos : ∀ t ∈ subjects, 0 < difficulty t) :
    0 < effective_weight subjects difficulty := by
  have h := total_weight_pos subjects difficulty hne hpos
  unfold effective_weight
  rw [if_neg (by omega)]
  exact h

/-- Each subject starts with a non-negative hour budget. -/
theorem hours_per_subject_nonneg (subjects : List String) (difficulty : String → ℤ)
    (total_days : ℤ) (ah : ℚ) (s : String) (hne : subjects ≠ [])
    (hpos : ∀ t ∈ subjects, 0 < difficulty t) (hs : s ∈ subjects)
    (hdays : 0 ≤ total_days) (hah : 0 ≤ ah) :
    0 ≤ hours_per_subject subjects difficulty total_days ah s := by
  apply round1_nonneg
  have h1 : (0 : ℚ) ≤ (difficulty s : ℚ) := by exact_mod_cast (hpos s hs).le
  have h2 : (0 : ℚ) ≤ (effective_weight subjects difficulty : ℚ) := by
    exact_mod_cast (effective_weight_pos subjects difficulty hne hpos).le
  have h3 : (0 : ℚ) ≤ (total_days : ℚ) := by exact_mod_cast hdays
  exact mul_nonneg (div_nonneg h1 h2) (mul_nonneg h3 hah)

/-- C3: over the whole planning horizon, the study (non-review) hours that
`generate_schedule` allocates to a subject never exceed that subject's
rounded budget `round(difficulty[s]/totalWeight * totalDays * dailyHours, 1)`
by more than `0.1` (in fact they never exceed the budget at all). -/
theorem c3_study_within_budget (subjects : List String) (difficulty : String → ℤ)
    (available_hours : ℚ) (exam_date today : ℤ) (s : String)
    (hne : subjects ≠ []) (hpos : ∀ t ∈ subjects, 0 < difficulty t)
    (hdays : 0 < exam_date - today) (hs : s ∈ subjects) (hah : 0 ≤ available_hours) :
    totalStudyFor subjects difficulty available_hours exam_date today s
      ≤ hours_per_subject subjects difficulty (exam_date - today) available_hours s
        + 1/10 := by
  unfold totalStudyFor
  simp only [dayPlan]
  rw [studySum_eq]
  have h0 : 0 ≤ hpsAfter subjects available_hours
      (hours_per_subject subjects difficulty (exam_date - today) available_hours)
      ((exam_date - today).toNat) s :=
    hpsAfter_nonneg _ _ _ _
      (hours_per_subject_nonneg subjects difficulty (exam_date - today) available_hours s
        hne hpos hs (by omega) hah) _
  linarith

/-- Witness for C3 on the concrete two-subject scenario. -/
theorem c3_study_within_budget_witness :
    (["Math", "Science"] ≠ ([] : List String)) ∧
    (∀ t ∈ ["Math", "Science"], 0 < mathSciDifficulty t) ∧
    ((0 : ℤ) < 2 - 0) ∧ ("Math" ∈ ["Math", "Science"]) ∧ ((0 : ℚ) ≤ 3) ∧
    totalStudyFor ["Math", "Science"] mathSciDifficulty 3 2 0 "Math"
      ≤ hours_per_subject ["Math", "Science"] mathSciDifficulty (2 - 0) 3 "Math" + 1/10 :=
  ⟨by decide, by decide, by decide, by decide, by norm_num,
    c3_study_within_budget ["Math", "Science"] mathSciDifficulty 3 2 0 "Math"
      (by decide) (by decide) (by decide) (by decide) (by norm_num)⟩

/-- The owed-hours component of the generation fold after `n` days. -/
theorem foldl_dayStep_fst (subjects : List String) (ah : ℚ) (today : ℤ)
    (hps0 : String → ℚ) (s0 : Sched) :
    ∀ n : ℕ, ((List.range n).foldl (dayStep subjects ah today) (hps0, s0)).1
      = hpsAfter subjects ah hps0 n := by
  intro n
  induction n with
  | zero => rfl
  | succ n ihn =>
    rw [List.range_succ, List.foldl_append, List.foldl_cons, List.foldl_nil]
    show (allocDay subjects
      ((List.range n).foldl (dayStep subjects ah today) (hps0, s0)).1 ah).2.1 = _
    rw [ihn]
    rfl

/-- Looking up the key just assigned by `dictSet`. -/
theorem tasksAt_dictSet_self :
    ∀ (m : Sched) (k : ℤ) (v : List Task), tasksAt (dictSet m k v) k = v := by
  intro m
  induction m with
  | nil => intro k v; simp [dictSet, tasksAt]
  | cons a rest ih =>
    obtain ⟨k', ts⟩ := a
    intro k v
    simp only [dictSet]
    by_cases hk : k' = k
    · rw [if_pos hk]
      simp only [tasksAt]
      rw [if_pos hk]
    · rw [if_neg hk]
      simp only [tasksAt]
      rw [if_neg hk]
      exact ih k v

/-- `dictSet` does not change the lookup at other keys. -/
theorem tasksAt_dictSet_ne :
    ∀ (m : Sched) (k k0 : ℤ) (v : List Task), k0 ≠ k →
      tasksAt (dictSet m k v) k0 = tasksAt m k0 := by
  intro m
  induction m with
  | nil =>
    intro k k0 v h
    simp only [dictSet, tasksAt]
    rw [if_neg (fun hh => h hh.symm)]
  | cons a rest ih =>
    obtain ⟨k', ts⟩ := a
    intro k k0 v h
    simp only [dictSet]
    by_cases hk : k' = k
    · rw [if_pos hk]
      simp only [tasksAt]
      rw [if_neg (by rw [hk]; exact fun hh => h hh.symm),
        if_neg (by rw [hk]; exact fun hh => h hh.symm)]
    · rw [if_neg hk]
      simp only [tasksAt]
      by_cases hk0 : k' = k0
      · rw [if_pos hk0, if_pos hk0]
      · rw [if_neg hk0, if_neg hk0]
        exact ih k k0 v h

/-- `dictAppend` does not change the lookup at other keys. -/
theorem tasksAt_dictAppend_ne :
    ∀ (m : Sched) (k k0 : ℤ) (t : Task), k0 ≠ k →
      tasksAt (dictAppend m k t) k0 = tasksAt m k0 := by
  intro m
  induction m with
  | nil =>
    intro k k0 t h
    simp only [dictAppend, tasksAt]
    rw [if_neg (fun hh => h hh.symm)]
  | cons a rest ih =>
    obtain ⟨k', ts⟩ := a
    intro k k0 t h
    simp only [dictAppend]
    by_cases hk : k' = k
    · rw [if_pos hk]
      simp only [tasksAt]
      rw [if_neg (by rw [hk]; exact fun hh => h hh.symm),
        if_neg (by rw [hk]; exact fun hh => h hh.symm)]
    · rw [if_neg hk]
      simp only [tasksAt]
      by_cases hk0 : k' = k0
      · rw [if_pos hk0, if_pos hk0]
      · rw [if_neg hk0, if_neg hk0]
        exact ih k k0 t h

/-- Appending a day's review tasks does not change other keys. -/
theorem tasksAt_reviews_ne {rday k0 : ℤ} (h : k0 ≠ rday) :
    ∀ (plan : List Task) (m : Sched),
      tasksAt (plan.foldl
        (fun acc p => dictAppend acc rday ("Review " ++ p.1, round1 (p.2 / 2))) m) k0
        = tasksAt m k0 := by
  intro plan
  induction plan with
  | nil => intro m; rfl
  | cons p rest ih =>
    intro m
    rw [List.foldl_cons, ih, tasksAt_dictAppend_ne _ _ _ _ h]

/-- A day of the loop leaves the lookup at unrelated dates unchanged. -/
theorem dayStep_tasksAt_ne {subjects : List String} {ah : ℚ} {today : ℤ}
    {st : (String → ℚ) × Sched} {d : ℕ} {k0 : ℤ}
    (h1 : k0 ≠ today + (d : ℤ)) (h2 : k0 ≠ today + (d : ℤ) + 2) :
    tasksAt (dayStep subjects ah today st d).2 k0 = tasksAt st.2 k0 := by
  simp only [dayStep]
  rw [tasksAt_reviews_ne h2]
  split
  · rfl
  · exact tasksAt_dictSet_ne _ _ _ _ h1

/-- Days of the loop that do not target `k0` leave its lookup unchanged. -/
theorem foldl_dayStep_tasksAt_ne (subjects : List String) (ah : ℚ) (today k0 : ℤ) :
    ∀ (l : List ℕ) (st : (String → ℚ) × Sched),
      (∀ d ∈ l, k0 ≠ today + (d : ℤ) ∧ k0 ≠ today + (d : ℤ) + 2) →
      tasksAt ((l.foldl (dayStep subjects ah today) st)).2 k0 = tasksAt st.2 k0 := by
  intro l
  induction l with
  | nil => intro st _; rfl
  | cons d rest ih =>
    intro st hall
    rw [List.foldl_cons,
      ih _ (fun d' hd' => hall d' (List.mem_cons_of_mem _ hd'))]
    exact dayStep_tasksAt_ne (hall d (List.mem_cons_self _ _)).1
      (hall d (List.mem_cons_self _ _)).2

/-- What `generate_schedule` records for a planning day `d` with a
non-empty plan is exactly that day's `today_plan` (later iterations never
touch it; the day-`d` assignment overwrote any earlier reviews there). -/
theorem generate_schedule_records (subjects : List String) (difficulty : String → ℤ)
    (available_hours : ℚ) (exam_date today : ℤ) (d : ℕ)
    (hdn : d < (exam_date - today).toNat)
    (hplan : dayPlan subjects difficulty available_hours exam_date today d ≠ []) :
    tasksAt (generate_schedule subjects difficulty available_hours exam_date today)
        (today + (d : ℤ))
      = dayPlan subjects difficulty available_hours exam_date today d := by
  unfold generate_schedule
  simp only [dayPlan, planOn] at hplan ⊢
  obtain ⟨mm, hm⟩ : ∃ mm, (exam_date - today).toNat = (d + 1) + mm :=
    ⟨(exam_date - today).toNat - (d + 1), by omega⟩
  rw [hm, List.range_add, List.foldl_append]
  have hcond : ∀ d' ∈ (List.range mm).map (fun x => (d + 1) + x),
      (today + (d : ℤ)) ≠ today + (d' : ℤ) ∧
      (today + (d : ℤ)) ≠ today + (d' : ℤ) + 2 := by
    intro d' hd'
    obtain ⟨i, hi, rfl⟩ := List.mem_map.mp hd'
    constructor
    · push_cast
      omega
    · push_cast
      omega
  rw [foldl_dayStep_tasksAt_ne subjects available_hours today (today + (d : ℤ)) _ _ hcond]
  rw [List.range_succ, List.foldl_append, List.foldl_cons, List.foldl_nil]
  simp only [dayStep]
  rw [tasksAt_reviews_ne (by omega : (today + (d : ℤ)) ≠ today + (d : ℤ) + 2)]
  rw [foldl_dayStep_fst]
  rw [if_neg hplan]
  exact tasksAt_dictSet_self _ _ _

/-- C4: on every day `d`, the newly allocated study hours sum to at most
`dailyHours`; each individual allocation (being
`min(1.0, owed, remaining)` with a positivity guard) is positive and at
most one hour; and for a planning day with a non-empty plan those
allocations are exactly what the schedule records for date `today + d`. -/
theorem c4_daily_cap (subjects : List String) (difficulty : String → ℤ)
    (available_hours : ℚ) (exam_date today : ℤ) (d : ℕ) (hah : 0 ≤ available_hours) :
    planSum (dayPlan subjects difficulty available_hours exam_date today d)
        ≤ available_hours ∧
    (∀ p ∈ dayPlan subjects difficulty available_hours exam_date today d,
        0 < p.2 ∧ p.2 ≤ 1) ∧
    (d < (exam_date - today).toNat →
      dayPlan subjects difficulty available_hours exam_date today d ≠ [] →
      tasksAt (generate_schedule subjects difficulty available_hours exam_date today)
          (today + (d : ℤ))
        = dayPlan subjects difficulty available_hours exam_date today d) := by
  refine ⟨?_, ?_, fun h1 h2 =>
    generate_schedule_records subjects difficulty available_hours exam_date today d h1 h2⟩
  · simp only [dayPlan, planOn]
    exact allocDay_planSum_le _ _ _ hah
  · intro p hp
    simp only [dayPlan, planOn] at hp
    exact allocDay_entry_bounds p _ _ _ hp

/-- Witness for C4 on the single-subject concrete input, day 0. -/
theorem c4_daily_cap_witness :
    ((0 : ℚ) ≤ 1) ∧
    (planSum (dayPlan ["Math"] mathOnlyDifficulty 1 3 0 0) ≤ 1 ∧
     (∀ p ∈ dayPlan ["Math"] mathOnlyDifficulty 1 3 0 0, 0 < p.2 ∧ p.2 ≤ 1) ∧
     (0 < ((3 : ℤ) - 0).toNat → dayPlan ["Math"] mathOnlyDifficulty 1 3 0 0 ≠ [] →
       tasksAt (generate_schedule ["Math"] mathOnlyDifficulty 1 3 0) (0 + ((0 : ℕ) : ℤ))
         = dayPlan ["Math"] mathOnlyDifficulty 1 3 0 0)) :=
  ⟨by norm_num, c4_daily_cap ["Math"] mathOnlyDifficulty 1 3 0 0 (by norm_num)⟩

/-- Rounding an integer changes nothing. -/
theorem pyRoundInt_intCast (n : ℤ) : pyRoundInt (n : ℚ) = n := by
  simp [pyRoundInt]

/-- Evaluation rule for `round1` on an exact multiple of `1/10`. -/
theorem round1_of_mul_ten (q : ℚ) (n : ℤ) (h : q * 10 = (n : ℚ)) : round1 q = n / 10 := by
  rw [round1, h, pyRoundInt_intCast]

/-- C2: the concrete scenario.  Subjects `["Math","Science"]`, difficulty
`{Math:4, Science:2}`, 3 daily hours, exam in 2 days: the budgets are
Math = 4.0 and Science = 2.0, and the schedule holds exactly days 0 and 1
with `[(Math,1.0),(Science,1.0)]` and days 2 and 3 with
`[("Review Math",0.5),("Review Science",0.5)]` (keys in insertion order
0, 2, 1, 3). -/
theorem c2_concrete_scenario :
    hours_per_subject ["Math", "Science"] mathSciDifficulty 2 3 "Math" = 4 ∧
    hours_per_subject ["Math", "Science"] mathSciDifficulty 2 3 "Science" = 2 ∧
    generate_schedule ["Math", "Science"] mathSciDifficulty 3 2 0 =
      [(0, [("Math", 1), ("Science", 1)]),
       (2, [("Review Math", 1/2), ("Review Science", 1/2)]),
       (1, [("Math", 1), ("Science", 1)]),
       (3, [("Review Math", 1/2), ("Review Science", 1/2)])] := by
  have he : effective_weight ["Math", "Science"] mathSciDifficulty = 6 := by decide
  have hdM : mathSciDifficulty "Math" = 4 := by decide
  have hdS : mathSciDifficulty "Science" = 2 := by decide
  have hM : hours_per_subject ["Math", "Science"] mathSciDifficulty 2 3 "Math" = 4 := by
    rw [hours_per_subject, he, hdM]
    rw [round1_of_mul_ten _ 40 (by norm_num)]
    norm_num
  have hS : hours_per_subject ["Math", "Science"] mathSciDifficulty 2 3 "Science" = 2 := by
    rw [hours_per_subject, he, hdS]
    rw [round1_of_mul_ten _ 20 (by norm_num)]
    norm_num
  have h12 : round1 ((1 : ℚ)/2) = 1/2 := by
    rw [round1_of_mul_ten _ 5 (by norm_num)]; norm_num
  have hr : List.range ((2 : ℤ) - 0).toNat = [0, 1] := by decide
  have hSM : ("Science" : String) ≠ "Math" := by decide
  have hMS : ("Math" : String) ≠ "Science" := by decide
  have hcM : "Review " ++ "Math" = "Review Math" := by decide
  have hcS : "Review " ++ "Science" = "Review Science" := by decide
  refine ⟨hM, hS, ?_⟩
  · simp only [generate_schedule, hr, List.foldl_cons, List.foldl_nil]
    norm_num [dayStep, allocDay, dictSet, dictAppend, hM, hS, h12, hSM, hMS, hcM, hcS,
      Function.update_apply, min_def]

/-- C1 fails on the code: with one subject Math of difficulty 1, one daily
hour and the exam in 3 days, day 0's study task `("Math", 1.0)` exists, but
its review task `("Review Math", round(0.5, 1))` is absent from day
`0 + 2 = 2`: day 2's dict assignment `schedule[date] = today_plan`
overwrote the review list appended on day 0. -/
theorem c1_review_overwritten :
    ("Math", 1) ∈ tasksAt (generate_schedule ["Math"] mathOnlyDifficulty 1 3 0) 0 ∧
    tasksAt (generate_schedule ["Math"] mathOnlyDifficulty 1 3 0) 2 = [("Math", 1)] ∧
    ("Review Math", round1 (1 / 2)) ∉
      tasksAt (generate_schedule ["Math"] mathOnlyDifficulty 1 3 0) 2 := by
  have he1 : effective_weight ["Math"] mathOnlyDifficulty = 1 := by decide
  have hd1 : mathOnlyDifficulty "Math" = 1 := by decide
  have hM3 : hours_per_subject ["Math"] mathOnlyDifficulty 3 1 "Math" = 3 := by
    rw [hours_per_subject, he1, hd1]
    rw [round1_of_mul_ten _ 30 (by norm_num)]
    norm_num
  have h12 : round1 ((1 : ℚ)/2) = 1/2 := by
    rw [round1_of_mul_ten _ 5 (by norm_num)]; norm_num
  have hr3 : List.range ((3 : ℤ) - 0).toNat = [0, 1, 2] := by decide
  have hc : "Review " ++ "Math" = "Review Math" := by decide
  have full : generate_schedule ["Math"] mathOnlyDifficulty 1 3 0 =
      [(0, [("Math", 1)]), (2, [("Math", 1)]), (1, [("Math", 1)]),
       (3, [("Review Math", 1/2)]), (4, [("Review Math", 1/2)])] := by
    simp only [generate_schedule, hr3, List.foldl_cons, List.foldl_nil]
    norm_num [dayStep, allocDay, dictSet, dictAppend, hM3, h12, hc,
      Function.update_apply, min_def]
  rw [full, h12]
  norm_num [tasksAt]

/-- C5: when the exam date is today or earlier, `total_days ≤ 0`, the
generation loop never runs, and the schedule is empty. -/
theorem c5_empty_when_exam_passed (subjects : List String) (difficulty : String → ℤ)
    (available_hours : ℚ) (exam_date today : ℤ) (h : exam_date ≤ today) :
    generate_schedule subjects difficulty available_hours exam_date today = [] := by
  unfold generate_schedule
  have h0 : (exam_date - today).toNat = 0 := by omega
  simp [h0]

/-- Witness for C5 at `exam_date = today = 0`. -/
theorem c5_empty_when_exam_passed_witness :
    (0 : ℤ) ≤ 0 ∧ generate_schedule ["Math"] mathOnlyDifficulty 3 0 0 = [] :=
  ⟨le_refl 0, c5_empty_when_exam_passed ["Math"] mathOnlyDifficulty 3 0 0 (le_refl 0)⟩

/-- C8: `generate_schedule` is deterministic — equal inputs (subjects,
difficulty, daily hours, exam date and the same `today` reference date)
give equal schedules.  Purity is witnessed by the embedding itself: the
function is a total function of exactly these arguments. -/
theorem c8_deterministic (s₁ s₂ : List String) (f₁ f₂ : String → ℤ) (a₁ a₂ : ℚ)
    (e₁ e₂ t₁ t₂ : ℤ) (hs : s₁ = s₂) (hf : f₁ = f₂) (ha : a₁ = a₂)
    (he : e₁ = e₂) (ht : t₁ = t₂) :
    generate_schedule s₁ f₁ a₁ e₁ t₁ = generate_schedule s₂ f₂ a₂ e₂ t₂ := by
  rw [hs, hf, ha, he, ht]

/-- Witness for C8 on the concrete scenario inputs. -/
theorem c8_deterministic_witness :
    generate_schedule ["Math"] mathOnlyDifficulty 1 3 0 =
      generate_schedule ["Math"] mathOnlyDifficulty 1 3 0 :=
  c8_deterministic ["Math"] ["Math"] mathOnlyDifficulty mathOnlyDifficulty 1 1 3 3 0 0
    rfl rfl rfl rfl rfl

/-- C9: `save_favorite` leaves the list unchanged when an equal record is
already present, otherwise appends exactly that record at the end; in
particular it is idempotent, and never removes or reorders elements. -/
theorem c9_save_favorite_append_only (favorites : List Resource) (resource : Resource) :
    (resource ∈ favorites → save_favorite favorites resource = favorites) ∧
    (resource ∉ favorites → save_favorite favorites resource = favorites ++ [resource]) ∧
    save_favorite (save_favorite favorites resource) resource =
      save_favorite favorites resource := by
  refine ⟨fun h => by simp [save_favorite, h], fun h => by simp [save_favorite, h], ?_⟩
  by_cases h : resource ∈ favorites <;> simp [save_favorite, h]

/-- Witness for C9 on a concrete record and the empty favorites list. -/
theorem c9_save_favorite_append_only_witness :
    save_favorite [] ⟨"Article", "Math", "Intro", "url"⟩ =
      [] ++ [⟨"Article", "Math", "Intro", "url"⟩] :=
  (c9_save_favorite_append_only [] ⟨"Article", "Math", "Intro", "url"⟩).2.1 (by decide)

end StudyPlanner
